import Mathlib

/-!
Verification of the Xauron scanner bot core (`bot.py`, `main.py`).

Shallow embedding of the pure core of the repository: candle normalization,
the ATR/Vortex indicator engine, the signal decision, the trade-plan builder,
the symbol normalizer, and the scan scheduler's per-key dedup state machine.
Python floats are modelled as rationals (`ℚ`), Python lists as `List`,
Python `raise` as `Except.error`, and the module-level environment constants
(window lengths, multipliers, threshold) as explicit parameters with their
documented defaults as named constants.
-/

/-- A signal/state token as used by `bot.py` (the strings `"NONE"`, `"WAIT"`,
`"BUY"`, `"SELL"`; `"NONE"` is only the default of `LAST_STATE.get`). -/
inductive SigState where
  | NONE
  | WAIT
  | BUY
  | SELL
  deriving DecidableEq, Repr, Fintype

/-- One OHLC candle (`@dataclass Candle` in `bot.py`). -/
structure Candle where
  t : String
  o : ℚ
  h : ℚ
  l : ℚ
  c : ℚ
  deriving DecidableEq, Repr

instance : Inhabited Candle := ⟨⟨"", 0, 0, 0, 0⟩⟩

/-! ## Scan scheduler per-key dedup step (`autoscan_job`, bot.py lines 342-353)

For one tracking key with previously stored state `prev` (default `"NONE"`)
and freshly computed signal `sig`, the body of the inner loop does:
`if signal in ("BUY", "SELL") and signal != prev: store signal; send alert` and
`if signal == "WAIT": store WAIT` (no alert). The returned `Bool` is whether an
alert was sent. -/
def stepKey (prev sig : SigState) : SigState × Bool :=
  if (sig = SigState.BUY ∨ sig = SigState.SELL) ∧ sig ≠ prev then
    (sig, true)
  else if sig = SigState.WAIT then
    (SigState.WAIT, false)
  else
    (prev, false)

/-- Run the per-key dedup step over a scripted sequence of per-tick signals,
numbering ticks from `t` upward; returns the final stored state and the list
of `(tick, signal)` deliveries, in order. -/
def runTicks (prev : SigState) (t : Nat) : List SigState → SigState × List (Nat × SigState)
  | [] => (prev, [])
  | s :: rest =>
    let step := stepKey prev s
    let tail := runTicks step.1 (t + 1) rest
    (tail.1, (if step.2 then [(t, s)] else []) ++ tail.2)

/-! ## Indicator engine (`_true_range`, `atr`, `vortex` in bot.py) -/

/-- The function `_true_range(curr, prev_close)` (bot.py lines 137-138): the Python
three-argument `max(curr.h - curr.l, abs(curr.h - prev_close), abs(curr.l - prev_close))`. -/
def _true_range (curr : Candle) (prev_close : ℚ) : ℚ :=
  max (curr.h - curr.l) (max |curr.h - prev_close| |curr.l - prev_close|)

/-- The list of `(candles[i-1], candles[i])` pairs for `i = 1 .. len-1`, the
iteration pattern of the `for i in range(1, len(candles))` loops in `atr` and
`vortex`. -/
def adjPairs : List Candle → List (Candle × Candle)
  | p :: c :: rest => (p, c) :: adjPairs (c :: rest)
  | _ => []

/-- The `trs` list built by `atr` (and the `tr` list of `vortex`). -/
def trList (cs : List Candle) : List ℚ :=
  (adjPairs cs).map fun pc => _true_range pc.2 pc.1.c

/-- The `vm_plus` list of `vortex`: `abs(c.h - p.l)` per consecutive pair. -/
def vmPlusList (cs : List Candle) : List ℚ :=
  (adjPairs cs).map fun pc => |pc.2.h - pc.1.l|

/-- The `vm_minus` list of `vortex`: `abs(c.l - p.h)` per consecutive pair. -/
def vmMinusList (cs : List Candle) : List ℚ :=
  (adjPairs cs).map fun pc => |pc.2.l - pc.1.h|

/-- Python's negative-index slice `xs[-n:]`: the last `n` elements, the whole
list when `n = 0` (since `xs[-0:] = xs[0:]`) or when `n ≥ len(xs)`. -/
def lastWindow (n : Nat) (xs : List ℚ) : List ℚ :=
  if n = 0 then xs else xs.drop (xs.length - n)

/-- The function `atr(candles, length)` (bot.py lines 141-148). `raise RuntimeError` is
modelled as `Except.error` with the exact message string. -/
def atr (candles : List Candle) (length : Nat) : Except String ℚ :=
  if candles.length < length + 1 then
    .error ("Poucos candles para ATR.")
  else
    let window := lastWindow length (trList candles)
    .ok (window.sum / (window.length : ℚ))

/-- The function `vortex(candles, length)` (bot.py lines 151-173), including the
`sum_tr = sum(tr_w) if sum(tr_w) != 0 else 1e-9` degenerate-denominator guard
(the float literal `1e-9` is modelled as the rational `1/1000000000`). -/
def vortex (candles : List Candle) (length : Nat) : Except String (ℚ × ℚ) :=
  if candles.length < length + 1 then
    .error ("Poucos candles para Vortex.")
  else
    let vm_plus_w := lastWindow length (vmPlusList candles)
    let vm_minus_w := lastWindow length (vmMinusList candles)
    let tr_w := lastWindow length (trList candles)
    let sum_tr := if tr_w.sum ≠ 0 then tr_w.sum else (1 : ℚ) / 1000000000
    .ok (vm_plus_w.sum / sum_tr, vm_minus_w.sum / sum_tr)

/-! Spec-side index formulas (the wording of spec §4.2, for the refinement
theorems): the candle at position `i`, and the per-step quantities
`TR_i`, `VM+_i`, `VM−_i` for `i ≥ 1`. -/

/-- The candle at index `i` (a total stand-in for `candles[i]`). -/
def candleAt (cs : List Candle) (i : Nat) : Candle :=
  cs.getD i default

/-- Spec §4.2: `TR_i = max(high_i − low_i, |high_i − close_{i−1}|, |low_i − close_{i−1}|)`. -/
def trAt (cs : List Candle) (i : Nat) : ℚ :=
  _true_range (candleAt cs i) (candleAt cs (i - 1)).c

/-- Spec §4.2: `VM+_i = |high_i − low_{i−1}|`. -/
def vmPlusAt (cs : List Candle) (i : Nat) : ℚ :=
  |(candleAt cs i).h - (candleAt cs (i - 1)).l|

/-- Spec §4.2: `VM−_i = |low_i − high_{i−1}|`. -/
def vmMinusAt (cs : List Candle) (i : Nat) : ℚ :=
  |(candleAt cs i).l - (candleAt cs (i - 1)).h|

/-- Spec §4.2: the Vortex denominator — `ΣTR` over the most recent `n` steps,
with `1e-9` substituted when that sum is exactly zero. -/
def vortexDenom (cs : List Candle) (n : Nat) : ℚ :=
  if (∑ i in Finset.Ico (cs.length - n) cs.length, trAt cs i) = 0 then
    (1 : ℚ) / 1000000000
  else
    ∑ i in Finset.Ico (cs.length - n) cs.length, trAt cs i

theorem adjPairs_eq_range (cs : List Candle) :
    adjPairs cs =
      (List.range (cs.length - 1)).map (fun j => (candleAt cs j, candleAt cs (j + 1))) := by
  induction cs with
  | nil => rfl
  | cons p tl ih =>
    cases tl with
    | nil => rfl
    | cons c rest =>
      show (p, c) :: adjPairs (c :: rest) = _
      have hlen : (p :: c :: rest).length - 1 = rest.length + 1 := by simp
      rw [hlen, List.range_succ_eq_map, List.map_cons, List.map_map]
      refine congrArg₂ List.cons (by simp [candleAt]) ?_
      rw [ih]
      have hlen2 : (c :: rest).length - 1 = rest.length := by simp
      rw [hlen2]
      apply List.map_congr_left
      intro j hj
      simp [candleAt, Function.comp]

theorem adjMap_eq_range (g : Candle → Candle → ℚ) (cs : List Candle) :
    (adjPairs cs).map (fun pc => g pc.1 pc.2) =
      (List.range (cs.length - 1)).map (fun j => g (candleAt cs j) (candleAt cs (j + 1))) := by
  rw [adjPairs_eq_range, List.map_map]
  rfl

theorem trList_eq (cs : List Candle) :
    trList cs = (List.range (cs.length - 1)).map (fun j => trAt cs (j + 1)) :=
  adjMap_eq_range (fun p c => _true_range c p.c) cs

theorem vmPlusList_eq (cs : List Candle) :
    vmPlusList cs = (List.range (cs.length - 1)).map (fun j => vmPlusAt cs (j + 1)) :=
  adjMap_eq_range (fun p c => |c.h - p.l|) cs

theorem vmMinusList_eq (cs : List Candle) :
    vmMinusList cs = (List.range (cs.length - 1)).map (fun j => vmMinusAt cs (j + 1)) :=
  adjMap_eq_range (fun p c => |c.l - p.h|) cs

theorem lastWindow_map_range (f : Nat → ℚ) (m n : Nat) (hn : 1 ≤ n) (hm : n ≤ m) :
    lastWindow n ((List.range m).map f) = (List.range n).map (fun k => f (m - n + k)) := by
  unfold lastWindow
  rw [if_neg (by omega)]
  apply List.ext_getElem
  · simp; omega
  · intro i h1 h2
    simp only [List.getElem_drop, List.getElem_map, List.getElem_range,
      List.length_map, List.length_range]

theorem sum_map_range (f : Nat → ℚ) (n : Nat) :
    ((List.range n).map f).sum = ∑ k in Finset.range n, f k := by
  induction n with
  | zero => simp
  | succ n ih =>
    rw [List.range_succ, List.map_append, List.sum_append, Finset.sum_range_succ, ih]
    simp

theorem window_sum (f : Nat → ℚ) (L n : Nat) (hn : 1 ≤ n) (hL : n + 1 ≤ L) :
    (lastWindow n ((List.range (L - 1)).map (fun j => f (j + 1)))).sum
      = ∑ i in Finset.Ico (L - n) L, f i := by
  rw [lastWindow_map_range _ _ _ hn (by omega), sum_map_range,
    Finset.sum_Ico_eq_sum_range]
  have hc : L - (L - n) = n := by omega
  rw [hc]
  apply Finset.sum_congr rfl
  intro k _
  congr 1
  omega

theorem window_length (f : Nat → ℚ) (L n : Nat) (hn : 1 ≤ n) (hL : n + 1 ≤ L) :
    (lastWindow n ((List.range (L - 1)).map (fun j => f (j + 1)))).length = n := by
  rw [lastWindow_map_range _ _ _ hn (by omega)]
  simp

/-- Candles used to instantiate the indicator theorems on concrete data. -/
def exCandles : List Candle :=
  [⟨"t0", 1, 2, 1, 2⟩, ⟨"t1", 2, 3, 2, 3⟩, ⟨"t2", 3, 5, 3, 4⟩]

/-- C4. For `L ≥ N+1` (window `N ≥ 1` per the data model), `atr` returns
the arithmetic mean of the most recent `N` true ranges
`TR_i = max(high_i − low_i, |high_i − close_{i−1}|, |low_i − close_{i−1}|)`,
i.e. the plain sum over indices `L−N .. L−1` divided by `N` (a simple moving
average, with no Wilder smoothing). -/
theorem atr_eq_mean_trueRange (cs : List Candle) (n : Nat)
    (hn : 1 ≤ n) (hL : n + 1 ≤ cs.length) :
    atr cs n =
      Except.ok ((∑ i in Finset.Ico (cs.length - n) cs.length, trAt cs i) / (n : ℚ)) := by
  unfold atr
  rw [if_neg (by omega)]
  simp only [trList_eq]
  rw [window_sum (trAt cs) cs.length n hn hL, window_length (trAt cs) cs.length n hn hL]

/-- Witness for `atr_eq_mean_trueRange`: on `exCandles` with window 2 the two
true ranges are 1 and 2, so the ATR is 3/2. -/
theorem atr_eq_mean_trueRange_witness :
    atr exCandles 2 =
      Except.ok ((∑ i in Finset.Ico (exCandles.length - 2) exCandles.length, trAt exCandles i) / (2 : ℚ)) ∧
    (∑ i in Finset.Ico (exCandles.length - 2) exCandles.length, trAt exCandles i) / (2 : ℚ) = 3 / 2 := by
  constructor
  · exact atr_eq_mean_trueRange exCandles 2 (by norm_num) (by norm_num [exCandles])
  · have h3 : exCandles.length = 3 := rfl
    rw [h3]
    rw [show Finset.Ico (3 - 2) 3 = ({1, 2} : Finset ℕ) by decide]
    rw [Finset.sum_insert (by decide), Finset.sum_singleton]
    norm_num [trAt, candleAt, exCandles, _true_range]

/-- C3. For `L ≥ N+1` (window `N ≥ 1`), `vortex` returns
`VI+ = ΣVM+ / D` and `VI− = ΣVM− / D`, each sum taken independently over the
most recent `N` steps with `VM+_i = |high_i − low_{i−1}|`,
`VM−_i = |low_i − high_{i−1}|` and `TR_i` the true range, where the
denominator `D` is `ΣTR`, or the substitute `1e-9` when `ΣTR` is exactly
zero; that denominator is never zero, so the function never divides by zero. -/
theorem vortex_eq_spec (cs : List Candle) (n : Nat)
    (hn : 1 ≤ n) (hL : n + 1 ≤ cs.length) :
    vortex cs n =
      Except.ok
        ((∑ i in Finset.Ico (cs.length - n) cs.length, vmPlusAt cs i) / vortexDenom cs n,
         (∑ i in Finset.Ico (cs.length - n) cs.length, vmMinusAt cs i) / vortexDenom cs n) ∧
    vortexDenom cs n ≠ 0 := by
  constructor
  · unfold vortex
    rw [if_neg (by omega)]
    simp only [trList_eq, vmPlusList_eq, vmMinusList_eq]
    rw [window_sum (trAt cs) cs.length n hn hL,
      window_sum (vmPlusAt cs) cs.length n hn hL,
      window_sum (vmMinusAt cs) cs.length n hn hL]
    unfold vortexDenom
    by_cases h0 : (∑ i in Finset.Ico (cs.length - n) cs.length, trAt cs i) = 0 <;>
      simp [h0]
  · unfold vortexDenom
    by_cases h0 : (∑ i in Finset.Ico (cs.length - n) cs.length, trAt cs i) = 0 <;>
      simp [h0]

/-- Witness for `vortex_eq_spec` on `exCandles` with window 1. -/
theorem vortex_eq_spec_witness :
    (vortex exCandles 1 =
      Except.ok
        ((∑ i in Finset.Ico (exCandles.length - 1) exCandles.length, vmPlusAt exCandles i) / vortexDenom exCandles 1,
         (∑ i in Finset.Ico (exCandles.length - 1) exCandles.length, vmMinusAt exCandles i) / vortexDenom exCandles 1) ∧
      vortexDenom exCandles 1 ≠ 0) ∧
    vortexDenom exCandles 1 = 2 :=
  ⟨vortex_eq_spec exCandles 1 (by norm_num) (by norm_num [exCandles]), by
    unfold vortexDenom
    have h3 : exCandles.length = 3 := rfl
    rw [h3]
    rw [show Finset.Ico (3 - 1) 3 = ({2} : Finset ℕ) by decide, Finset.sum_singleton]
    norm_num [trAt, candleAt, exCandles, _true_range]⟩

/-- C5. Both `atr` and `vortex` fail with the insufficient-candles error
exactly when `L < N + 1`; short inputs always produce that error value
(a defined `Except.error`, never an out-of-range access or a numeric
result). -/
theorem insufficient_candles_iff :
    ∀ (cs : List Candle) (n : Nat),
      (atr cs n = Except.error ("Poucos candles para ATR.") ↔ cs.length < n + 1) ∧
      (vortex cs n = Except.error ("Poucos candles para Vortex.") ↔ cs.length < n + 1) := by
  intro cs n
  by_cases hc : cs.length < n + 1 <;> simp [atr, vortex, hc]

/-! ## Signal decision and trade plan (`decide_signal`, `build_trade_plan`,
`analyze_once` in bot.py) -/

/-- The default of the env constant `MIN_STRENGTH` (`0.12`). -/
def MIN_STRENGTH : ℚ := 12 / 100

/-- The function `decide_signal(vi_p, vi_m)` (bot.py lines 177-181), with the module
constant `MIN_STRENGTH` made an explicit first argument. -/
def decide_signal (min_strength vi_p vi_m : ℚ) : SigState × ℚ :=
  let strength := |vi_p - vi_m|
  if strength < min_strength then
    (SigState.WAIT, strength)
  else
    ((if vi_p > vi_m then SigState.BUY else SigState.SELL), strength)

/-- The four env multiplier constants `ATR_SL_MULT`, `ATR_TP1_MULT`,
`ATR_TP2_MULT`, `ATR_TP3_MULT`. -/
structure AtrMults where
  sl : ℚ
  tp1 : ℚ
  tp2 : ℚ
  tp3 : ℚ
  deriving DecidableEq, Repr

/-- Their documented defaults `1.5 / 1.0 / 2.0 / 3.0`. -/
def defaultMults : AtrMults := ⟨3 / 2, 1, 2, 3⟩

/-- The dict returned by `build_trade_plan`. -/
structure TradePlan where
  entry : ℚ
  sl : ℚ
  tp1 : ℚ
  tp2 : ℚ
  tp3 : ℚ
  deriving DecidableEq, Repr

/-- The function `build_trade_plan(last_price, direction, atr_val)` (bot.py lines 184-196),
with the multiplier constants made an explicit argument; any direction other
than `"BUY"` takes the `else` (SELL) branch, as in the source. -/
def build_trade_plan (m : AtrMults) (last_price : ℚ) (direction : SigState)
    (atr_val : ℚ) : TradePlan :=
  if direction = SigState.BUY then
    { entry := last_price
      sl := last_price - atr_val * m.sl
      tp1 := last_price + atr_val * m.tp1
      tp2 := last_price + atr_val * m.tp2
      tp3 := last_price + atr_val * m.tp3 }
  else
    { entry := last_price
      sl := last_price + atr_val * m.sl
      tp1 := last_price - atr_val * m.tp1
      tp2 := last_price - atr_val * m.tp2
      tp3 := last_price - atr_val * m.tp3 }

/-- The `direction = "BUY" if vi_p > vi_m else "SELL"` expression of
`analyze_once` (bot.py line 223). -/
def analyzeDirection (vi_p vi_m : ℚ) : SigState :=
  if vi_p > vi_m then SigState.BUY else SigState.SELL

/-- The function `analyze_once(symbol, interval)` (bot.py lines 216-226) with the fetched
candle list abstracted into an input and the env constants explicit: computes
vortex, atr, the last close, the signal, the direction and the plan, and
returns `(signal, plan, strength, vi_p, vi_m, atr_val)`. -/
def analyze_once (candles : List Candle) (vi_length atr_length : Nat)
    (min_strength : ℚ) (m : AtrMults) :
    Except String (SigState × TradePlan × ℚ × ℚ × ℚ × ℚ) :=
  match vortex candles vi_length with
  | .error e => .error e
  | .ok vi =>
    match atr candles atr_length with
    | .error e => .error e
    | .ok atr_val =>
      let last_price := (candles.getLastD default).c
      let ds := decide_signal min_strength vi.1 vi.2
      let plan := build_trade_plan m last_price (analyzeDirection vi.1 vi.2) atr_val
      .ok (ds.1, plan, ds.2, vi.1, vi.2, atr_val)

/-- Inversion for a successful `analyze_once` run: the components of the
result in terms of `vortex`, `atr`, `decide_signal`, `analyzeDirection` and
`build_trade_plan`. -/
theorem analyze_once_ok (cs : List Candle) (vl al : Nat) (thr : ℚ) (m : AtrMults)
    (r : SigState × TradePlan × ℚ × ℚ × ℚ × ℚ)
    (h : analyze_once cs vl al thr m = Except.ok r) :
    ∃ vi av2, vortex cs vl = Except.ok vi ∧ atr cs al = Except.ok av2 ∧
      r = ((decide_signal thr vi.1 vi.2).1,
           build_trade_plan m (cs.getLastD default).c (analyzeDirection vi.1 vi.2) av2,
           (decide_signal thr vi.1 vi.2).2, vi.1, vi.2, av2) := by
  unfold analyze_once at h
  cases hv : vortex cs vl with
  | error e => rw [hv] at h; simp at h
  | ok vi =>
    rw [hv] at h
    cases ha : atr cs al with
    | error e => rw [ha] at h; simp at h
    | ok av2 =>
      rw [ha] at h
      refine ⟨vi, av2, rfl, rfl, ?_⟩
      simpa using h.symm

/-- C2. The function `decide_signal` returns strength `|VI+ − VI−|`; the decision is
WAIT iff the strength is below the threshold; otherwise BUY iff `VI+ > VI−`
and SELL iff `VI+ ≤ VI−`; in particular an exact tie with strength at or
above the threshold is SELL, never WAIT. -/
theorem decide_signal_spec (thr vi_p vi_m : ℚ) :
    (decide_signal thr vi_p vi_m).2 = |vi_p - vi_m| ∧
    ((decide_signal thr vi_p vi_m).1 = SigState.WAIT ↔ |vi_p - vi_m| < thr) ∧
    (thr ≤ |vi_p - vi_m| →
      (((decide_signal thr vi_p vi_m).1 = SigState.BUY ↔ vi_p > vi_m) ∧
       ((decide_signal thr vi_p vi_m).1 = SigState.SELL ↔ vi_p ≤ vi_m))) ∧
    (vi_p = vi_m → thr ≤ |vi_p - vi_m| →
      (decide_signal thr vi_p vi_m).1 = SigState.SELL) := by
  unfold decide_signal
  by_cases hlt : |vi_p - vi_m| < thr
  · rw [if_pos hlt]
    exact ⟨rfl, by simpa using hlt,
      fun hge => absurd hlt (not_lt.mpr hge),
      fun _ hge => absurd hlt (not_lt.mpr hge)⟩
  · rw [if_neg hlt]
    by_cases hgt : vi_p > vi_m
    · rw [if_pos hgt]
      exact ⟨rfl, by simp [hlt],
        fun _ => ⟨by simp [hgt], by simp [not_le.mpr hgt]⟩,
        fun heq _ => absurd hgt (by simp [heq])⟩
    · rw [if_neg hgt]
      exact ⟨rfl, by simp [hlt],
        fun _ => ⟨by simp [hgt], by simp [not_lt.mp hgt]⟩,
        fun _ _ => rfl⟩

/-- Witness for `decide_signal_spec`: threshold 0 and a tie, so the tie-break
clause fires and yields SELL. -/
theorem decide_signal_spec_witness :
    ((decide_signal 0 1 1).2 = |(1 : ℚ) - 1|) ∧
    ((decide_signal 0 1 1).1 = SigState.SELL) ∧
    (((decide_signal 0 1 1).1 = SigState.BUY ↔ (1 : ℚ) > 1)) :=
  ⟨(decide_signal_spec 0 1 1).1,
   (decide_signal_spec 0 1 1).2.2.2 rfl (by norm_num),
   ((decide_signal_spec 0 1 1).2.2.1 (by norm_num)).1⟩

/-- C6. With `ATR > 0`, positive multipliers and strictly increasing
target multipliers, the BUY plan satisfies
`stop < entry < target1 < target2 < target3` and the SELL plan the mirrored
chain, the entry of either plan being exactly the price argument; and any
plan produced by `analyze_once` has the last candle's close as its entry. -/
theorem trade_plan_ordering (m : AtrMults) (price atr_val : ℚ)
    (hatr : 0 < atr_val) (hsl : 0 < m.sl) (h1 : 0 < m.tp1)
    (h12 : m.tp1 < m.tp2) (h23 : m.tp2 < m.tp3) :
    ((build_trade_plan m price SigState.BUY atr_val).sl
        < (build_trade_plan m price SigState.BUY atr_val).entry ∧
      (build_trade_plan m price SigState.BUY atr_val).entry
        < (build_trade_plan m price SigState.BUY atr_val).tp1 ∧
      (build_trade_plan m price SigState.BUY atr_val).tp1
        < (build_trade_plan m price SigState.BUY atr_val).tp2 ∧
      (build_trade_plan m price SigState.BUY atr_val).tp2
        < (build_trade_plan m price SigState.BUY atr_val).tp3) ∧
    ((build_trade_plan m price SigState.SELL atr_val).sl
        > (build_trade_plan m price SigState.SELL atr_val).entry ∧
      (build_trade_plan m price SigState.SELL atr_val).entry
        > (build_trade_plan m price SigState.SELL atr_val).tp1 ∧
      (build_trade_plan m price SigState.SELL atr_val).tp1
        > (build_trade_plan m price SigState.SELL atr_val).tp2 ∧
      (build_trade_plan m price SigState.SELL atr_val).tp2
        > (build_trade_plan m price SigState.SELL atr_val).tp3) ∧
    (build_trade_plan m price SigState.BUY atr_val).entry = price ∧
    (build_trade_plan m price SigState.SELL atr_val).entry = price ∧
    (∀ (cs : List Candle) (vl al : Nat) (thr : ℚ) (sig : SigState)
        (plan : TradePlan) (s vp vm av : ℚ),
      analyze_once cs vl al thr m = Except.ok (sig, plan, s, vp, vm, av) →
      plan.entry = (cs.getLastD default).c) := by
  have hB : build_trade_plan m price SigState.BUY atr_val =
      { entry := price, sl := price - atr_val * m.sl, tp1 := price + atr_val * m.tp1,
        tp2 := price + atr_val * m.tp2, tp3 := price + atr_val * m.tp3 } := by
    unfold build_trade_plan
    rw [if_pos rfl]
  have hS : build_trade_plan m price SigState.SELL atr_val =
      { entry := price, sl := price + atr_val * m.sl, tp1 := price - atr_val * m.tp1,
        tp2 := price - atr_val * m.tp2, tp3 := price - atr_val * m.tp3 } := by
    unfold build_trade_plan
    rw [if_neg (by decide)]
  refine ⟨?_, ?_, ?_, ?_, ?_⟩
  · rw [hB]
    refine ⟨?_, ?_, ?_, ?_⟩ <;> dsimp only <;> nlinarith
  · rw [hS]
    refine ⟨?_, ?_, ?_, ?_⟩ <;> dsimp only <;> nlinarith
  · rw [hB]
  · rw [hS]
  · intro cs vl al thr sig plan s vp vm av h
    obtain ⟨vi, av2, -, -, hr⟩ := analyze_once_ok cs vl al thr m _ h
    have hplan : plan = build_trade_plan m (cs.getLastD default).c
        (analyzeDirection vi.1 vi.2) av2 := by
      have := congrArg (fun x => x.2.1) hr
      simpa using this
    rw [hplan]
    unfold build_trade_plan
    by_cases hd : analyzeDirection vi.1 vi.2 = SigState.BUY <;> simp [hd]

/-- Witness for `trade_plan_ordering` at the default multipliers, price 100
and ATR 1, plus a concrete `analyze_once` run for the entry clause. -/
theorem trade_plan_ordering_witness :
    ((build_trade_plan defaultMults 100 SigState.BUY 1).sl
        < (build_trade_plan defaultMults 100 SigState.BUY 1).entry ∧
      (build_trade_plan defaultMults 100 SigState.BUY 1).entry
        < (build_trade_plan defaultMults 100 SigState.BUY 1).tp1 ∧
      (build_trade_plan defaultMults 100 SigState.BUY 1).tp1
        < (build_trade_plan defaultMults 100 SigState.BUY 1).tp2 ∧
      (build_trade_plan defaultMults 100 SigState.BUY 1).tp2
        < (build_trade_plan defaultMults 100 SigState.BUY 1).tp3) ∧
    ((build_trade_plan defaultMults 100 SigState.SELL 1).sl
        > (build_trade_plan defaultMults 100 SigState.SELL 1).entry ∧
      (build_trade_plan defaultMults 100 SigState.SELL 1).entry
        > (build_trade_plan defaultMults 100 SigState.SELL 1).tp1 ∧
      (build_trade_plan defaultMults 100 SigState.SELL 1).tp1
        > (build_trade_plan defaultMults 100 SigState.SELL 1).tp2 ∧
      (build_trade_plan defaultMults 100 SigState.SELL 1).tp2
        > (build_trade_plan defaultMults 100 SigState.SELL 1).tp3) ∧
    (build_trade_plan defaultMults 100 SigState.BUY 1).entry = 100 ∧
    (build_trade_plan defaultMults 100 SigState.SELL 1).entry = 100 ∧
    (∀ (sig : SigState) (plan : TradePlan) (s vp vm av : ℚ),
      analyze_once exCandles 1 1 MIN_STRENGTH defaultMults
          = Except.ok (sig, plan, s, vp, vm, av) →
      plan.entry = (exCandles.getLastD default).c) := by
  have h := trade_plan_ordering defaultMults 100 1 (by norm_num)
    (by norm_num [defaultMults]) (by norm_num [defaultMults])
    (by norm_num [defaultMults]) (by norm_num [defaultMults])
  exact ⟨h.1, h.2.1, h.2.2.1, h.2.2.2.1,
    fun sig plan s vp vm av hh => h.2.2.2.2 exCandles 1 1 MIN_STRENGTH sig plan s vp vm av hh⟩

/-! ## Candle normalization (`fetch_candles_twelve`, bot.py lines 120-133) -/

/-- One raw provider row (`row["datetime"]`, `row["open"]`, ...). -/
structure RawRow where
  datetime : String
  o : ℚ
  h : ℚ
  l : ℚ
  c : ℚ
  deriving DecidableEq, Repr

/-- The `Candle(...)` built from one raw row. -/
def rowToCandle (r : RawRow) : Candle :=
  ⟨r.datetime, r.o, r.h, r.l, r.c⟩

/-- The candle-list construction of `fetch_candles_twelve`: raise when
`values` is empty, else append one candle per row of `reversed(values)`. -/
def normalize_candles (values : List RawRow) : Except String (List Candle) :=
  if values.isEmpty then
    .error ("TwelveData não retornou candles (values vazio).")
  else
    .ok (values.reverse.map rowToCandle)

/-- A raw row with the earlier timestamp. -/
def row1 : RawRow := ⟨"2024-01-01", 1, 1, 1, 1⟩

/-- A raw row with the later timestamp. -/
def row2 : RawRow := ⟨"2024-01-02", 2, 2, 2, 2⟩

/-- C7, counterexample. Normalizing the two-row response
`[row1, row2]` whose timestamps are already oldest-first is *not* a no-op
reorder: the code reverses unconditionally, so the output is the two candles
in the opposite order. -/
theorem normalize_oldest_first_not_noop :
    normalize_candles [row1, row2] ≠ Except.ok ([row1, row2].map rowToCandle) := by
  simp [normalize_candles, rowToCandle, row1, row2]

/-- C7, amended. Normalization of a non-empty row collection always
produces exactly the reversed sequence of converted rows — so a newest-first
provider response comes out oldest-first — and reversing twice restores the
original order (the reorder is an involution, though normalization itself is
not a no-op on an already oldest-first response). -/
theorem normalize_reverses (values : List RawRow) (hne : values ≠ []) :
    normalize_candles values = Except.ok ((values.map rowToCandle).reverse) ∧
    ((values.map rowToCandle).reverse).reverse = values.map rowToCandle := by
  constructor
  · simp [normalize_candles, hne]
  · simp

/-- Witness for `normalize_reverses` on the concrete two-row response. -/
theorem normalize_reverses_witness :
    normalize_candles [row1, row2]
        = Except.ok (([row1, row2].map rowToCandle).reverse) ∧
    (([row1, row2].map rowToCandle).reverse).reverse = [row1, row2].map rowToCandle :=
  normalize_reverses [row1, row2] (by simp)

/-! ## C9: a WAIT evaluation still constructs a trade plan -/

/-- Two flat candles: the vortex sums are all zero, so the strength is `0`,
the signal is WAIT, and the epsilon denominator guard fires. -/
def waitCandles : List Candle :=
  [⟨"t0", 1, 1, 1, 1⟩, ⟨"t1", 1, 1, 1, 1⟩]

/-- Concrete evaluation: on `waitCandles` with windows of 1 and the default
threshold, `analyze_once` returns signal WAIT together with a (degenerate)
constructed trade plan. -/
theorem analyze_wait_run :
    analyze_once waitCandles 1 1 MIN_STRENGTH defaultMults =
      Except.ok (SigState.WAIT, ⟨1, 1, 1, 1, 1⟩, 0, 0, 0, 0) := by
  have hv : vortex waitCandles 1 = Except.ok (0, 0) := by
    unfold vortex waitCandles
    norm_num [vmPlusList, vmMinusList, trList, adjPairs, lastWindow, _true_range]
  have ha : atr waitCandles 1 = Except.ok 0 := by
    unfold atr waitCandles
    norm_num [trList, adjPairs, lastWindow, _true_range]
  unfold analyze_once
  rw [hv, ha]
  have hds : decide_signal MIN_STRENGTH 0 0 = (SigState.WAIT, 0) := by
    norm_num [decide_signal, MIN_STRENGTH]
  have hdir : analyzeDirection 0 0 = SigState.SELL := by
    norm_num [analyzeDirection]
  have hplan : build_trade_plan defaultMults 1 SigState.SELL 0 = ⟨1, 1, 1, 1, 1⟩ := by
    unfold build_trade_plan defaultMults
    norm_num
  simp only [hds, hdir]
  have hlast : (waitCandles.getLastD default).c = 1 := rfl
  rw [hlast, hplan]

/-- C9, counterexample. An evaluation whose computed signal is WAIT still
constructs a trade plan: on `waitCandles` the result is
`(WAIT, plan, ...)` with `plan` exactly the output of the trade-plan builder
(invoked with the SELL direction that `vi_p > vi_m` being false yields). -/
theorem wait_evaluation_constructs_plan :
    analyze_once waitCandles 1 1 MIN_STRENGTH defaultMults =
      Except.ok (SigState.WAIT, ⟨1, 1, 1, 1, 1⟩, 0, 0, 0, 0) ∧
    (⟨1, 1, 1, 1, 1⟩ : TradePlan) = build_trade_plan defaultMults 1 (analyzeDirection 0 0) 0 := by
  refine ⟨analyze_wait_run, ?_⟩
  have hdir : analyzeDirection 0 0 = SigState.SELL := by
    norm_num [analyzeDirection]
  rw [hdir]
  unfold build_trade_plan defaultMults
  norm_num

/-- C9, amended. The trade-plan builder is only ever invoked with the
direction `analyzeDirection vi_p vi_m`, which is always BUY or SELL — WAIT
never reaches it — but a trade plan *is* constructed on every successful
evaluation, including those whose computed signal is WAIT (the plan is merely
not delivered for WAIT). -/
theorem analyze_direction_never_wait :
    (∀ vp vm : ℚ,
      analyzeDirection vp vm = SigState.BUY ∨ analyzeDirection vp vm = SigState.SELL) ∧
    (∀ (cs : List Candle) (vl al : Nat) (thr : ℚ) (m : AtrMults)
        (r : SigState × TradePlan × ℚ × ℚ × ℚ × ℚ),
      analyze_once cs vl al thr m = Except.ok r →
      r.2.1 = build_trade_plan m (cs.getLastD default).c
        (analyzeDirection r.2.2.2.1 r.2.2.2.2.1) r.2.2.2.2.2) := by
  constructor
  · intro vp vm
    unfold analyzeDirection
    by_cases hgt : vp > vm
    · exact Or.inl (if_pos hgt)
    · exact Or.inr (if_neg hgt)
  · intro cs vl al thr m r h
    obtain ⟨vi, av2, -, -, hr⟩ := analyze_once_ok cs vl al thr m r h
    rw [hr]

/-- Witness for `analyze_direction_never_wait` at the concrete WAIT run. -/
theorem analyze_direction_never_wait_witness :
    (analyzeDirection 0 0 = SigState.BUY ∨ analyzeDirection 0 0 = SigState.SELL) ∧
    (SigState.WAIT, (⟨1, 1, 1, 1, 1⟩ : TradePlan), (0 : ℚ), (0 : ℚ), (0 : ℚ), (0 : ℚ)).2.1 =
      build_trade_plan defaultMults (waitCandles.getLastD default).c
        (analyzeDirection 0 0) 0 :=
  ⟨analyze_direction_never_wait.1 0 0,
   analyze_direction_never_wait.2 waitCandles 1 1 MIN_STRENGTH defaultMults
     (SigState.WAIT, ⟨1, 1, 1, 1, 1⟩, 0, 0, 0, 0) analyze_wait_run⟩

/-! ## Scan cycle isolation (`autoscan_job`, bot.py lines 325-356) -/

/-- A tracking key `(chat_id, symbol, tf)`. -/
structure TrackingKey where
  chat : Int
  symbol : String
  tf : String
  deriving DecidableEq, Repr

/-- Whether a per-key pipeline evaluation succeeded. -/
def evalOk (r : Except String SigState) : Bool :=
  match r with
  | .ok _ => true
  | .error _ => false

/-- One scan cycle of `autoscan_job` over the enumerated tracking keys: for
each key, evaluate the pipeline inside `try`; on an exception, log and
continue (no state change, no delivery); on success, apply the dedup step to
the stored state for that key, recording `(key, signal)` for each alert
sent. -/
def runCycle (eval : TrackingKey → Except String SigState)
    (st : TrackingKey → SigState) :
    List TrackingKey → (TrackingKey → SigState) × List (TrackingKey × SigState)
  | [] => (st, [])
  | k :: rest =>
    match eval k with
    | .error _ => runCycle eval st rest
    | .ok sig =>
      let step := stepKey (st k) sig
      let st2 := fun k2 => if k2 = k then step.1 else st k2
      let tail := runCycle eval st2 rest
      (tail.1, (if step.2 then [(k, sig)] else []) ++ tail.2)

/-- C8. Key isolation in a scan cycle: the whole cycle (final dedup store
and delivery list alike) is exactly what it would be with the failing keys
removed — so one key's failure never aborts or alters the evaluation and
deliveries of the other keys — and a key whose evaluation fails keeps its
stored dedup state unchanged. -/
theorem cycle_key_isolation :
    (∀ (eval : TrackingKey → Except String SigState) (st : TrackingKey → SigState)
        (keys : List TrackingKey),
      runCycle eval st keys
        = runCycle eval st (keys.filter (fun k => evalOk (eval k)))) ∧
    (∀ (eval : TrackingKey → Except String SigState) (st : TrackingKey → SigState)
        (keys : List TrackingKey) (k : TrackingKey) (e : String),
      eval k = Except.error e → (runCycle eval st keys).1 k = st k) := by
  constructor
  · intro eval st keys
    induction keys generalizing st with
    | nil => rfl
    | cons k2 rest ih =>
      cases h2 : eval k2 with
      | error e2 =>
        rw [List.filter_cons]
        simp only [h2, evalOk, Bool.false_eq_true, if_neg, runCycle]
        exact ih st
      | ok sig =>
        rw [List.filter_cons]
        simp only [h2, evalOk, if_pos, runCycle]
        rw [ih]
        rfl
  · intro eval st keys k e hk
    induction keys generalizing st with
    | nil => rfl
    | cons k2 rest ih =>
      cases h2 : eval k2 with
      | error e2 =>
        simp only [runCycle, h2]
        exact ih st
      | ok sig =>
        have hne : k2 ≠ k := by
          intro he
          rw [he, hk] at h2
          cases h2
        simp only [runCycle, h2]
        rw [ih (fun k2_1 => if k2_1 = k2 then (stepKey (st k2) sig).1 else st k2_1)]
        rw [if_neg (fun he => hne he.symm)]

/-- A key whose pipeline evaluation fails in the concrete cycle below. -/
def kBad : TrackingKey := ⟨1, "XAU/USD", "1min"⟩

/-- A key whose pipeline evaluation succeeds in the concrete cycle below. -/
def kGood : TrackingKey := ⟨1, "EUR/USD", "5min"⟩

/-- A concrete per-cycle evaluation: `kBad`'s source call fails, every other
key computes a BUY signal. -/
def evalEx (k : TrackingKey) : Except String SigState :=
  if k = kBad then .error ("TwelveData error: symbol unavailable") else .ok SigState.BUY

/-- Witness for `cycle_key_isolation` on the concrete two-key cycle. -/
theorem cycle_key_isolation_witness :
    (runCycle evalEx (fun _ => SigState.NONE) [kBad, kGood]
        = runCycle evalEx (fun _ => SigState.NONE)
            (([kBad, kGood]).filter (fun k => evalOk (evalEx k)))) ∧
    (runCycle evalEx (fun _ => SigState.NONE) [kBad, kGood]).1 kBad = SigState.NONE :=
  ⟨cycle_key_isolation.1 evalEx (fun _ => SigState.NONE) [kBad, kGood],
   cycle_key_isolation.2 evalEx (fun _ => SigState.NONE) [kBad, kGood] kBad
     ("TwelveData error: symbol unavailable") (by simp [evalEx])⟩

/-! ## Symbol normalization (`_normalize_symbol`, bot.py lines 58-65)

Python strings are modelled as `List Char`; `str.strip()` / `str.upper()` are
modelled on their ASCII behaviour (`Char.toUpper` is exactly Python's ASCII
case map), which covers every character the symbol pipeline deals with. -/

/-- Python `str.strip()` whitespace test (ASCII): space, `\t`, `\n`, `\r`,
`\x0b`, `\x0c`. -/
def isSpaceChar (c : Char) : Bool :=
  decide (c.toNat = 32) || decide (c.toNat = 9) || decide (c.toNat = 10)
    || decide (c.toNat = 13) || decide (c.toNat = 11) || decide (c.toNat = 12)

/-- Python `s.strip()`: drop leading and trailing whitespace. -/
def stripChars (l : List Char) : List Char :=
  ((l.dropWhile isSpaceChar).reverse.dropWhile isSpaceChar).reverse

/-- The cleaned form `raw.strip().upper().replace("#", "").replace("$", "")`. -/
def cleanSymbol (l : List Char) : List Char :=
  (((stripChars l).map Char.toUpper).filter (fun c => c != '#')).filter (fun c => c != '$')

/-- The regex test `^[A-Z]{6}$`: exactly six characters, all in `A`-`Z`. -/
def isSixUpper (l : List Char) : Bool :=
  l.length == 6 && l.all (fun c => decide (65 ≤ c.toNat) && decide (c.toNat ≤ 90))

/-- The function `_normalize_symbol(raw)` (bot.py lines 58-65): clean the input; return it
unchanged if it contains `/`; split a six-letter symbol as `s[:3] + "/" + s[3:]`;
otherwise return the cleaned form. -/
def _normalize_symbol (raw : List Char) : List Char :=
  if '/' ∈ cleanSymbol raw then
    cleanSymbol raw
  else if isSixUpper (cleanSymbol raw) then
    (cleanSymbol raw).take 3 ++ '/' :: (cleanSymbol raw).drop 3
  else
    cleanSymbol raw

theorem toUpper_toNat (c : Char) (h1 : 97 ≤ c.toNat) (h2 : c.toNat ≤ 122) :
    (Char.toUpper c).toNat = c.toNat - 32 := by
  unfold Char.toUpper
  rw [if_pos ⟨h1, h2⟩]
  have hv : (c.toNat - 32).isValidChar := Or.inl (by omega)
  rw [Char.ofNat, dif_pos hv]
  rfl

theorem toUpper_eq_self (c : Char) (h : ¬(c.toNat ≥ 97 ∧ c.toNat ≤ 122)) :
    Char.toUpper c = c := by
  unfold Char.toUpper
  rw [if_neg h]

theorem toUpper_idem (c : Char) : Char.toUpper (Char.toUpper c) = Char.toUpper c := by
  by_cases h : c.toNat ≥ 97 ∧ c.toNat ≤ 122
  · apply toUpper_eq_self
    rw [toUpper_toNat c h.1 h.2]
    omega
  · rw [toUpper_eq_self c h]
    exact toUpper_eq_self c h

theorem map_fix {α : Type} (f : α → α) (l : List α) (h : ∀ a ∈ l, f a = a) :
    l.map f = l := by
  induction l with
  | nil => rfl
  | cons a tl ih =>
    simp only [List.map_cons]
    rw [h a (by simp), ih (fun b hb => h b (by simp [hb]))]

theorem dropWhile_id {p : Char → Bool} (l : List Char)
    (h : ∀ c ∈ l, p c = false) : l.dropWhile p = l := by
  cases l with
  | nil => rfl
  | cons a tl =>
    rw [List.dropWhile_cons, h a (by simp)]
    simp

theorem stripChars_id (l : List Char) (h : ∀ c ∈ l, isSpaceChar c = false) :
    stripChars l = l := by
  unfold stripChars
  rw [dropWhile_id l h, dropWhile_id l.reverse (fun c hc => h c (List.mem_reverse.mp hc)),
    List.reverse_reverse]

theorem mem_dropWhile {p : Char → Bool} (l : List Char) (c : Char)
    (hc : c ∈ l) (hp : p c = false) : c ∈ l.dropWhile p := by
  induction l with
  | nil => cases hc
  | cons a tl ih =>
    rw [List.dropWhile_cons]
    cases hpa : p a with
    | true =>
      simp only [if_pos]
      rcases List.mem_cons.mp hc with rfl | h2
      · rw [hp] at hpa
        cases hpa
      · exact ih h2
    | false =>
      simp only [Bool.false_eq_true, if_neg]
      exact hc

theorem mem_stripChars (l : List Char) (c : Char)
    (hc : c ∈ l) (hp : isSpaceChar c = false) : c ∈ stripChars l := by
  unfold stripChars
  rw [List.mem_reverse]
  apply mem_dropWhile
  · rw [List.mem_reverse]
    exact mem_dropWhile l c hc hp
  · exact hp

theorem mem_cleanSymbol (raw : List Char) (c : Char) (hc : c ∈ cleanSymbol raw) :
    Char.toUpper c = c ∧ (c != '#') = true ∧ (c != '$') = true := by
  unfold cleanSymbol at hc
  have hdol := List.of_mem_filter hc
  have hc2 := List.mem_of_mem_filter hc
  have hhash := List.of_mem_filter hc2
  have hc3 := List.mem_of_mem_filter hc2
  obtain ⟨b, -, rfl⟩ := List.mem_map.mp hc3
  exact ⟨toUpper_idem b, hhash, hdol⟩

theorem cleanSymbol_of_clean (t : List Char)
    (hfix : ∀ c ∈ t, Char.toUpper c = c ∧ (c != '#') = true ∧ (c != '$') = true)
    (hstrip : stripChars t = t) :
    cleanSymbol t = t := by
  unfold cleanSymbol
  rw [hstrip, map_fix _ _ (fun a ha => (hfix a ha).1),
    List.filter_eq_self.mpr (fun a ha => (hfix a ha).2.1),
    List.filter_eq_self.mpr (fun a ha => (hfix a ha).2.2)]

theorem sixUpper_mem (l : List Char) (h : isSixUpper l = true) :
    ∀ c ∈ l, 65 ≤ c.toNat ∧ c.toNat ≤ 90 := by
  unfold isSixUpper at h
  simp only [Bool.and_eq_true, List.all_eq_true, beq_iff_eq] at h
  intro c hc
  have := h.2 c hc
  simpa using this

theorem az_char_clean (c : Char) (h : 65 ≤ c.toNat ∧ c.toNat ≤ 90) :
    Char.toUpper c = c ∧ (c != '#') = true ∧ (c != '$') = true ∧
      isSpaceChar c = false := by
  refine ⟨toUpper_eq_self c (by omega), ?_, ?_, ?_⟩
  · rw [bne_iff_ne]
    intro he
    have : c.toNat = 35 := by rw [he]; rfl
    omega
  · rw [bne_iff_ne]
    intro he
    have : c.toNat = 36 := by rw [he]; rfl
    omega
  · simp only [isSpaceChar, Bool.or_eq_false_iff, decide_eq_false_iff_not]
    omega

theorem slash_mem_cleanSymbol (raw : List Char) (h : '/' ∈ raw) :
    '/' ∈ cleanSymbol raw := by
  unfold cleanSymbol
  apply List.mem_filter.mpr
  refine ⟨List.mem_filter.mpr ⟨?_, by decide⟩, by decide⟩
  apply List.mem_map.mpr
  refine ⟨'/', mem_stripChars raw '/' h (by decide), by decide⟩

/-- C10, counterexample. The function `_normalize_symbol` is not idempotent: on the
input `"# A"` the `#`-removal exposes a leading space that only a second pass
strips, so normalizing twice differs from normalizing once
(`_normalize_symbol "# A" = " A"` but `_normalize_symbol " A" = "A"`). -/
theorem normalize_symbol_not_idempotent :
    _normalize_symbol (_normalize_symbol ['#', ' ', 'A'])
      ≠ _normalize_symbol ['#', ' ', 'A'] := by
  decide

/-- C10, amended. The function `_normalize_symbol` is idempotent on every input whose
cleaned form carries no leading or trailing whitespace (removal of `#`/`$`
can expose interior whitespace at the edges, which breaks idempotence in
general); for every input whose cleaned form is exactly six letters `A`-`Z`
the result is the first three letters, `/`, then the last three; and any
input containing `/` is returned in cleaned form unchanged. -/
theorem normalize_symbol_spec :
    (∀ raw : List Char, stripChars (cleanSymbol raw) = cleanSymbol raw →
      _normalize_symbol (_normalize_symbol raw) = _normalize_symbol raw) ∧
    (∀ raw : List Char, isSixUpper (cleanSymbol raw) = true →
      _normalize_symbol raw
        = (cleanSymbol raw).take 3 ++ '/' :: (cleanSymbol raw).drop 3) ∧
    (∀ raw : List Char, '/' ∈ raw → _normalize_symbol raw = cleanSymbol raw) := by
  have hsix_noslash : ∀ l : List Char, isSixUpper l = true → '/' ∉ l := by
    intro l h6 hmem
    have := sixUpper_mem l h6 '/' hmem
    revert this
    decide
  refine ⟨?_, ?_, ?_⟩
  · intro raw hstrip
    have hclean : cleanSymbol (cleanSymbol raw) = cleanSymbol raw :=
      cleanSymbol_of_clean _ (mem_cleanSymbol raw) hstrip
    by_cases hslash : '/' ∈ cleanSymbol raw
    · have h1 : _normalize_symbol raw = cleanSymbol raw := by
        unfold _normalize_symbol
        rw [if_pos hslash]
      rw [h1]
      unfold _normalize_symbol
      rw [hclean, if_pos hslash]
    · by_cases h6 : isSixUpper (cleanSymbol raw) = true
      · have h1 : _normalize_symbol raw
            = (cleanSymbol raw).take 3 ++ '/' :: (cleanSymbol raw).drop 3 := by
          unfold _normalize_symbol
          rw [if_neg hslash, if_pos h6]
        rw [h1]
        have hAZ : ∀ c ∈ (cleanSymbol raw).take 3 ++ '/' :: (cleanSymbol raw).drop 3,
            Char.toUpper c = c ∧ (c != '#') = true ∧ (c != '$') = true ∧
              isSpaceChar c = false := by
          intro c hc
          rcases List.mem_append.mp hc with h1 | h2
          · exact az_char_clean c (sixUpper_mem _ h6 c (List.mem_of_mem_take h1))
          · rcases List.mem_cons.mp h2 with rfl | h3
            · exact ⟨by decide, by decide, by decide, by decide⟩
            · exact az_char_clean c (sixUpper_mem _ h6 c (List.mem_of_mem_drop h3))
        have hcleano : cleanSymbol ((cleanSymbol raw).take 3 ++ '/' :: (cleanSymbol raw).drop 3)
            = (cleanSymbol raw).take 3 ++ '/' :: (cleanSymbol raw).drop 3 :=
          cleanSymbol_of_clean _ (fun c hc => ⟨(hAZ c hc).1, (hAZ c hc).2.1, (hAZ c hc).2.2.1⟩)
            (stripChars_id _ (fun c hc => (hAZ c hc).2.2.2))
        unfold _normalize_symbol
        rw [hcleano, if_pos (by
          apply List.mem_append.mpr
          exact Or.inr (List.mem_cons_self _ _))]
      · have h1 : _normalize_symbol raw = cleanSymbol raw := by
          unfold _normalize_symbol
          rw [if_neg hslash, if_neg h6]
        rw [h1]
        unfold _normalize_symbol
        rw [hclean, if_neg hslash, if_neg h6]
  · intro raw h6
    unfold _normalize_symbol
    rw [if_neg (fun hs => hsix_noslash _ h6 hs), if_pos h6]
  · intro raw hs
    unfold _normalize_symbol
    rw [if_pos (slash_mem_cleanSymbol raw hs)]

/-- Witness for `normalize_symbol_spec` on `"XAUUSD"` (idempotence and the
six-letter split) and `"XAU/USD"` (the slash pass-through). -/
theorem normalize_symbol_spec_witness :
    _normalize_symbol (_normalize_symbol ['X', 'A', 'U', 'U', 'S', 'D'])
        = _normalize_symbol ['X', 'A', 'U', 'U', 'S', 'D'] ∧
    _normalize_symbol ['X', 'A', 'U', 'U', 'S', 'D']
        = (cleanSymbol ['X', 'A', 'U', 'U', 'S', 'D']).take 3
            ++ '/' :: (cleanSymbol ['X', 'A', 'U', 'U', 'S', 'D']).drop 3 ∧
    _normalize_symbol ['X', 'A', 'U', '/', 'U', 'S', 'D']
        = cleanSymbol ['X', 'A', 'U', '/', 'U', 'S', 'D'] :=
  ⟨normalize_symbol_spec.1 ['X', 'A', 'U', 'U', 'S', 'D'] (by decide),
   normalize_symbol_spec.2.1 ['X', 'A', 'U', 'U', 'S', 'D'] (by decide),
   normalize_symbol_spec.2.2 ['X', 'A', 'U', '/', 'U', 'S', 'D'] (by decide)⟩

/-- C1. The scheduler's per-tick dedup update: a delivery fires exactly
when the computed signal is BUY or SELL and differs from the stored state
(and then the new signal is stored); the script
`[WAIT, BUY, BUY, SELL, BUY, BUY]` starting from NONE delivers exactly
`[BUY at tick 2, SELL at tick 4, BUY at tick 5]`; an immediately repeated
non-WAIT signal never re-fires, while an intervening WAIT re-arms delivery
of even the same signal. -/
theorem autoscan_dedup_characterization :
    (∀ prev sig : SigState,
      (stepKey prev sig).2 = true ↔
        ((sig = SigState.BUY ∨ sig = SigState.SELL) ∧ sig ≠ prev)) ∧
    (∀ prev sig : SigState, (stepKey prev sig).2 = true → (stepKey prev sig).1 = sig) ∧
    (runTicks SigState.NONE 1
        [SigState.WAIT, SigState.BUY, SigState.BUY,
         SigState.SELL, SigState.BUY, SigState.BUY]).2 =
      [(2, SigState.BUY), (4, SigState.SELL), (5, SigState.BUY)] ∧
    (∀ prev sig : SigState, sig ≠ SigState.WAIT →
      (stepKey (stepKey prev sig).1 sig).2 = false) ∧
    (∀ sig : SigState, sig = SigState.BUY ∨ sig = SigState.SELL →
      (stepKey (stepKey sig SigState.WAIT).1 sig).2 = true) := by
  refine ⟨?_, ?_, ?_, ?_, ?_⟩ <;> decide

/-- Witness for `autoscan_dedup_characterization` at concrete inputs. -/
theorem autoscan_dedup_characterization_witness :
    ((stepKey SigState.WAIT SigState.BUY).2 = true ↔
      ((SigState.BUY = SigState.BUY ∨ SigState.BUY = SigState.SELL) ∧
        SigState.BUY ≠ SigState.WAIT)) ∧
    (stepKey SigState.WAIT SigState.BUY).1 = SigState.BUY ∧
    (stepKey (stepKey SigState.NONE SigState.SELL).1 SigState.SELL).2 = false ∧
    (stepKey (stepKey SigState.BUY SigState.WAIT).1 SigState.BUY).2 = true :=
  ⟨autoscan_dedup_characterization.1 SigState.WAIT SigState.BUY,
   autoscan_dedup_characterization.2.1 SigState.WAIT SigState.BUY (by decide),
   autoscan_dedup_characterization.2.2.2.1 SigState.NONE SigState.SELL (by decide),
   autoscan_dedup_characterization.2.2.2.2 SigState.BUY (Or.inl rfl)⟩
